import Mathlib

/-!
Verification development for the Stairs bot repository.

The repository keeps an in-memory ledger `db.users` mapping a Telegram user
id to a record `{ name, total, days, updatedAt }`, where `days` maps
`YYYY-MM-DD` date keys to per-day counts.  We shallowly embed the ledger and
its mutating handlers from `src/index.js` (both bot variants found there) and
`src/unnamed/part_000`, and prove the spec's claims about them.

Modelling conventions:
- JS objects keyed by strings become association lists `List (String × _)`;
  lookup and assignment act on the first occurrence of a key, matching the
  unique-key behaviour of JS objects.
- JS numbers in the ledger are integers by the bots' validation, so they are
  embedded as `Int`.
- ISO timestamps (`new Date().toISOString()`) are opaque; each mutating
  operation takes the captured timestamp as an explicit `now : Nat`.
- An absent `days` field is identified with the empty map: every read site in
  the source defaults it (`u.days?.[k] || 0`, `u.days ||= {}`, `u.days = u.days || {}`).
-/

/-- A JS object holding per-day counts: `{ "YYYY-MM-DD": n, ... }`. -/
abbrev DayMap := List (String × Int)

/-- Lookup with JS default: `u.days[k] || 0`. -/
def dget : DayMap → String → Int
  | [], _ => 0
  | (k', v) :: rest, k => if k' = k then v else dget rest k

/-- JS property assignment `m[k] = v`: overwrite the existing key or append. -/
def dset : DayMap → String → Int → DayMap
  | [], k, v => [(k, v)]
  | (k', v') :: rest, k, v =>
      if k' = k then (k, v) :: rest else (k', v') :: dset rest k v

/-- `Object.values(m).reduce((a, v) => a + (v || 0), 0)`. -/
def sumV : DayMap → Int
  | [] => 0
  | (_, v) :: rest => v + sumV rest

/-- `k in m` — whether the key is present in the object. -/
def hasKey : DayMap → String → Bool
  | [], _ => false
  | (k', _) :: rest, k => k' = k || hasKey rest k

/-- Every per-day value is non-negative. -/
def daysOkB : DayMap → Bool
  | [] => true
  | (_, v) :: rest => decide (0 ≤ v) && daysOkB rest

theorem sumV_dset (m : DayMap) (k : String) (v : Int) :
    sumV (dset m k v) = sumV m - dget m k + v := by
  induction m with
  | nil => simp [dset, sumV, dget]
  | cons p rest ih =>
      obtain ⟨k', v'⟩ := p
      by_cases h : k' = k
      · simp [dset, sumV, dget, h]; ring
      · simp [dset, sumV, dget, h, ih]; ring

theorem dget_nonneg (m : DayMap) (k : String) (h : daysOkB m = true) :
    0 ≤ dget m k := by
  induction m with
  | nil => simp [dget]
  | cons p rest ih =>
      obtain ⟨k', v'⟩ := p
      simp [daysOkB] at h
      by_cases hk : k' = k
      · simp [dget, hk, h.1]
      · simp [dget, hk]; exact ih h.2

theorem daysOkB_dset (m : DayMap) (k : String) (v : Int)
    (hm : daysOkB m = true) (hv : 0 ≤ v) : daysOkB (dset m k v) = true := by
  induction m with
  | nil => simp [dset, daysOkB, hv]
  | cons p rest ih =>
      obtain ⟨k', v'⟩ := p
      simp [daysOkB] at hm
      by_cases hk : k' = k
      · simp [dset, daysOkB, hk, hv, hm.1, hm.2]
      · simp [dset, daysOkB, hk, hm.1, ih hm.2]

theorem hasKey_dset (m : DayMap) (k k' : String) (v : Int)
    (h : hasKey m k' = true) : hasKey (dset m k v) k' = true := by
  induction m with
  | nil => simp [hasKey] at h
  | cons p rest ih =>
      obtain ⟨k0, v0⟩ := p
      simp [hasKey] at h
      by_cases hk : k0 = k
      · subst hk
        simp [dset, hasKey]
        exact h
      · simp [dset, hasKey, hk]
        rcases h with h | h
        · exact Or.inl h
        · exact Or.inr (ih h)

/-- One user's record in `db.users`:
`{ name: string, total: number, days: {...}, updatedAt: ISOString }`. -/
structure UserRec where
  name : String
  total : Int
  days : DayMap
  updatedAt : Nat
deriving Repr, DecidableEq

/-- `db.users` — a JS object keyed by the Telegram user id. -/
abbrev Users := List (String × UserRec)

/-- `db.users[userId]` (`undefined` becomes `none`). -/
def findUser : Users → String → Option UserRec
  | [], _ => none
  | (k, u) :: rest, uid => if k = uid then some u else findUser rest uid

/-- `db.users[userId] = u`. -/
def setUser : Users → String → UserRec → Users
  | [], uid, u => [(uid, u)]
  | (k, v) :: rest, uid, u =>
      if k = uid then (uid, u) :: rest else (k, v) :: setUser rest uid u

/-- `nameFallback || "Без імені"` — `ctx.from.username` may be missing/empty. -/
def fallbackName (username : String) : String :=
  if username = "" then "Без імені" else username

/-- The fresh record every creation site uses: `{ name, total: 0, days: {}, updatedAt: now }`. -/
def freshRec (name : String) (now : Nat) : UserRec :=
  { name := name, total := 0, days := [], updatedAt := now }

/-- `isRegistered(userId)` from `src/index.js`: `Boolean(db.users[userId]?.name)`. -/
def isRegistered (us : Users) (uid : String) : Bool :=
  match findUser us uid with
  | some u => u.name != ""
  | none => false

/-- `addStairs(userId, nameFallback, amount, dateKey)` (src/index.js lines 91-106),
acting on the user's slot: create the record if absent, then add `amount` to
`total` and to `days[dateKey]`. -/
def addStairsRec (slot : Option UserRec) (username : String) (amount : Int)
    (dateKey : String) (now : Nat) : UserRec :=
  let u := slot.getD (freshRec (fallbackName username) now)
  { u with
    total := u.total + amount
    days := dset u.days dateKey (dget u.days dateKey + amount)
    updatedAt := now }

/-- The `pendingNumber` branch of the `bot.on("text")` handler of variant 1
(src/index.js lines 318-365), after the positive-integer validation and the
`db.users[userId] ||= {...}` creation step.  `mode = true` is "add"
(recomputes `total` from the day values), `mode = false` is "sub" (refuses to
take more than today's value, otherwise recomputes `total`). -/
def pendingModeRec (u : UserRec) (mode : Bool) (n : Int) (iso : String)
    (now : Nat) : UserRec :=
  let todayVal := dget u.days iso
  if mode then
    let days' := dset u.days iso (todayVal + n)
    { u with days := days', total := sumV days', updatedAt := now }
  else
    if todayVal < n then u
    else
      let days' := dset u.days iso (todayVal - n)
      { u with days := days', total := sumV days', updatedAt := now }

/-- Failure modes of the `/update` command's negative-amount validation
(src/index.js lines 404-415); the spec groups both under
`InsufficientDayBalance`. -/
inductive UpdErr where
  | noData
  | insufficient
deriving Repr, DecidableEq

/-- The record-mutation part of `bot.command("/update")` (src/index.js lines
404-427): with `current = u.days?.[iso] || 0`, reject a negative `n` when
`current == 0` or `|n| > current`; otherwise set `days[iso] = current + n`
(clamped at 0 by the defensive guard), recompute `total` from the day values,
and stamp `updatedAt`. -/
def updateDay (u : UserRec) (iso : String) (n : Int) (now : Nat) :
    Except UpdErr UserRec :=
  if n < 0 then
    if dget u.days iso = 0 then Except.error UpdErr.noData
    else if dget u.days iso < |n| then Except.error UpdErr.insufficient
    else Except.ok (updateApply u iso (dget u.days iso) n now)
  else Except.ok (updateApply u iso (dget u.days iso) n now)
where
  updateApply (u : UserRec) (iso : String) (current n : Int) (now : Nat) :
      UserRec :=
    let v := current + n
    let days' := dset u.days iso (if v < 0 then 0 else v)
    { u with days := days', total := sumV days', updatedAt := now }

/-- The `/update` handler leaves the record untouched when validation fails. -/
def updateDayRun (u : UserRec) (iso : String) (n : Int) (now : Nat) : UserRec :=
  match updateDay u iso n now with
  | Except.ok u' => u'
  | Except.error _ => u

/-- `msg.startsWith("/")` — whether the message is a command. -/
def startsWithSlash (s : String) : Bool :=
  match s.data with
  | c :: _ => c = '/'
  | [] => false

/-- Name capture of variant 1 (src/index.js lines 283-306), acting on the
user's slot after the `awaitingName` check: commands are refused, the name is
validated to 2..40 characters, then
`db.users[userId] = db.users[userId] || {name: msg, total: 0, days: {}, ...}`
followed by `db.users[userId].name = msg; db.users[userId].updatedAt = now`. -/
def nameCapture1Rec (slot : Option UserRec) (msg : String) (now : Nat) :
    Option UserRec :=
  if startsWithSlash msg then slot
  else if msg.length < 2 ∨ 40 < msg.length then slot
  else
    let u := slot.getD (freshRec msg now)
    some { u with name := msg, updatedAt := now }

/-- Name capture of variant 2 (src/index.js lines 998-1017): after the same
length validation it assigns a fresh record wholesale:
`db.users[userId] = { name: raw, total: 0, days: {}, updatedAt: ... }`. -/
def nameCapture2Rec (slot : Option UserRec) (raw : String) (now : Nat) :
    Option UserRec :=
  if raw.length < 2 ∨ 40 < raw.length then slot
  else some (freshRec raw now)

/-- A record of the day-less v1 schema kept by `src/unnamed/part_000`:
`{ name: string, total: number, updatedAt: ISOString }`. -/
structure V1Rec where
  name : String
  total : Int
  updatedAt : Nat
deriving Repr, DecidableEq

/-- Name capture of variant 3 (src/unnamed/part_000 lines 182-200): assigns
`db.users[userId] = { name: raw, total: 0, updatedAt: now }` wholesale. -/
def nameCapture3Rec (slot : Option V1Rec) (raw : String) (now : Nat) :
    Option V1Rec :=
  if raw.length < 2 ∨ 40 < raw.length then slot
  else some { name := raw, total := 0, updatedAt := now }

/-- `db.users[userId] ||= {...}` — create the record only when absent. -/
def ensureUser (us : Users) (uid : String) (name : String) (now : Nat) : Users :=
  match findUser us uid with
  | some _ => us
  | none => setUser us uid (freshRec name now)

/-- `bot.command("stairs")` (src/index.js lines 220-241): requires
registration, requires a positive integer amount, then calls `addStairs` with
`ctx.from.username` as the fallback name. -/
def stairsCmdStep (us : Users) (uid : String) (username : String) (n : Int)
    (dateKey : String) (now : Nat) : Users :=
  if isRegistered us uid = false then us
  else if n ≤ 0 then us
  else setUser us uid (addStairsRec (findUser us uid) username n dateKey now)

/-- The `pendingNumber` branch of variant 1's text handler at the `db.users`
level: reject a non-positive number, otherwise ensure the record exists
(`db.users[userId] ||= {...}`) and run the add/sub branch. -/
def pendingStep (us : Users) (uid : String) (username : String) (mode : Bool)
    (n : Int) (iso : String) (now : Nat) : Users :=
  if n ≤ 0 then us
  else
    let us1 := ensureUser us uid (fallbackName username) now
    match findUser us1 uid with
    | some u => setUser us1 uid (pendingModeRec u mode n iso now)
    | none => us1

/-- `bot.command("/update")` at the `db.users` level: requires registration
and an existing record, then applies `updateDay`; every validation failure
leaves the ledger unchanged. -/
def updateCmdStep (us : Users) (uid : String) (iso : String) (n : Int)
    (now : Nat) : Users :=
  if isRegistered us uid = false then us
  else
    match findUser us uid with
    | none => us
    | some u =>
        match updateDay u iso n now with
        | Except.ok u' => setUser us uid u'
        | Except.error _ => us

/-- Variant 1 name capture at the `db.users` level. -/
def nameCapture1Step (us : Users) (uid : String) (msg : String) (now : Nat) :
    Users :=
  match nameCapture1Rec (findUser us uid) msg now with
  | some u => setUser us uid u
  | none => us

/-- Variant 2 name capture at the `db.users` level. -/
def nameCapture2Step (us : Users) (uid : String) (raw : String) (now : Nat) :
    Users :=
  match nameCapture2Rec (findUser us uid) raw now with
  | some u => setUser us uid u
  | none => us

/-- The ledger-mutating events of the v2 bots (`src/index.js`).  A user not in
`awaitingName` never reaches the name-capture branch, so this transition
system over-approximates the real reachable states. -/
inductive Op where
  | stairsCmd (uid username : String) (n : Int) (dateKey : String) (now : Nat)
  | pending (uid username : String) (mode : Bool) (n : Int) (iso : String) (now : Nat)
  | updateCmd (uid iso : String) (n : Int) (now : Nat)
  | nameCapture1 (uid msg : String) (now : Nat)
  | nameCapture2 (uid raw : String) (now : Nat)

/-- Effect of one inbound event on `db.users`. -/
def applyOp : Op → Users → Users
  | Op.stairsCmd uid username n dateKey now, us =>
      stairsCmdStep us uid username n dateKey now
  | Op.pending uid username mode n iso now, us =>
      pendingStep us uid username mode n iso now
  | Op.updateCmd uid iso n now, us => updateCmdStep us uid iso n now
  | Op.nameCapture1 uid msg now, us => nameCapture1Step us uid msg now
  | Op.nameCapture2 uid raw now, us => nameCapture2Step us uid raw now

/-- Ledger states reachable from the empty `users` object the bot starts with
(`ensureDataFile` seeds `{ users: {}, ... }`). -/
inductive Reachable : Users → Prop where
  | init : Reachable []
  | step (op : Op) {us : Users} : Reachable us → Reachable (applyOp op us)

/-- All records satisfy a per-record predicate. -/
def usersAll (p : UserRec → Bool) : Users → Bool
  | [] => true
  | (_, u) :: rest => p u && usersAll p rest

/-- The per-record ledger invariant: `total == sum(days.values())` and every
day value is non-negative. -/
def recOkB (u : UserRec) : Bool :=
  (u.total == sumV u.days) && daysOkB u.days

/-- The ledger invariant of the spec, over all records. -/
def InvB (us : Users) : Bool := usersAll recOkB us

/-- Every record carries a non-empty display name. -/
def NamesOkB (us : Users) : Bool := usersAll (fun u => u.name != "") us

theorem usersAll_setUser (p : UserRec → Bool) (us : Users) (uid : String)
    (u : UserRec) (hus : usersAll p us = true) (hu : p u = true) :
    usersAll p (setUser us uid u) = true := by
  induction us with
  | nil => simp [setUser, usersAll, hu]
  | cons q rest ih =>
      obtain ⟨k, v⟩ := q
      simp [usersAll] at hus
      by_cases hk : k = uid
      · simp [setUser, usersAll, hk, hu, hus.2]
      · simp [setUser, usersAll, hk, hus.1, ih hus.2]

theorem usersAll_findUser (p : UserRec → Bool) (us : Users) (uid : String)
    (u : UserRec) (hus : usersAll p us = true) (hf : findUser us uid = some u) :
    p u = true := by
  induction us with
  | nil => simp [findUser] at hf
  | cons q rest ih =>
      obtain ⟨k, v⟩ := q
      simp [usersAll] at hus
      by_cases hk : k = uid
      · simp [findUser, hk] at hf
        exact hf ▸ hus.1
      · simp [findUser, hk] at hf
        exact ih hus.2 hf

theorem recOkB_eq (u : UserRec) :
    recOkB u = true ↔ u.total = sumV u.days ∧ daysOkB u.days = true := by
  simp [recOkB]

theorem recOkB_fresh (name : String) (now : Nat) :
    recOkB (freshRec name now) = true := by
  simp [recOkB, freshRec, sumV, daysOkB]

theorem recOkB_addStairs_some (u : UserRec) (username : String) (n : Int)
    (dk : String) (now : Nat) (hu : recOkB u = true) (hn : 0 < n) :
    recOkB (addStairsRec (some u) username n dk now) = true := by
  rw [recOkB_eq] at hu
  simp only [addStairsRec, Option.getD_some]
  rw [recOkB_eq]
  constructor
  · show u.total + n = sumV (dset u.days dk (dget u.days dk + n))
    rw [sumV_dset, hu.1]
    ring
  · exact daysOkB_dset _ _ _ hu.2
      (by have := dget_nonneg u.days dk hu.2; omega)

theorem recOkB_addStairs_none (username : String) (n : Int) (dk : String)
    (now : Nat) (hn : 0 < n) :
    recOkB (addStairsRec none username n dk now) = true := by
  simp [addStairsRec, freshRec, recOkB, dget, dset, sumV, daysOkB]
  omega

theorem recOkB_pendingModeRec (u : UserRec) (mode : Bool) (n : Int)
    (iso : String) (now : Nat) (hu : recOkB u = true) (hn : 0 < n) :
    recOkB (pendingModeRec u mode n iso now) = true := by
  have hd : daysOkB u.days = true := ((recOkB_eq u).mp hu).2
  cases mode with
  | true =>
      simp only [pendingModeRec, if_pos]
      rw [recOkB_eq]
      refine ⟨rfl, daysOkB_dset _ _ _ hd ?_⟩
      have := dget_nonneg u.days iso hd
      omega
  | false =>
      simp only [pendingModeRec, Bool.false_eq_true, if_neg, not_false_iff]
      by_cases hlt : dget u.days iso < n
      · simp only [hlt, if_pos]
        exact hu
      · simp only [hlt, if_neg, not_false_iff]
        rw [recOkB_eq]
        exact ⟨rfl, daysOkB_dset _ _ _ hd (by omega)⟩

theorem recOkB_updateApply (u : UserRec) (iso : String) (current n : Int)
    (now : Nat) (hd : daysOkB u.days = true) :
    recOkB (updateDay.updateApply u iso current n now) = true := by
  rw [recOkB_eq]
  refine ⟨rfl, daysOkB_dset _ _ _ hd ?_⟩
  by_cases hv : current + n < 0
  · simp [hv]
  · simp [hv]; omega

theorem recOkB_updateDayRun (u : UserRec) (iso : String) (n : Int) (now : Nat)
    (hu : recOkB u = true) : recOkB (updateDayRun u iso n now) = true := by
  have hd : daysOkB u.days = true := ((recOkB_eq u).mp hu).2
  unfold updateDayRun updateDay
  split_ifs <;> first | exact hu | exact recOkB_updateApply u iso _ n now hd

theorem recOkB_rename (u : UserRec) (name : String) (now : Nat)
    (hu : recOkB u = true) :
    recOkB { u with name := name, updatedAt := now } = true := hu

theorem recOkB_nameCapture1Rec (slot : Option UserRec) (msg : String)
    (now : Nat) (hs : ∀ u, slot = some u → recOkB u = true) :
    ∀ u', nameCapture1Rec slot msg now = some u' → recOkB u' = true := by
  intro u' h
  unfold nameCapture1Rec at h
  split_ifs at h
  · exact hs u' h
  · exact hs u' h
  · cases slot with
    | none =>
        simp only [Option.getD_none, Option.some.injEq] at h
        exact h ▸ recOkB_rename _ _ _ (recOkB_fresh msg now)
    | some u =>
        simp only [Option.getD_some, Option.some.injEq] at h
        exact h ▸ recOkB_rename _ _ _ (hs u rfl)

theorem recOkB_nameCapture2Rec (slot : Option UserRec) (raw : String)
    (now : Nat) (hs : ∀ u, slot = some u → recOkB u = true) :
    ∀ u', nameCapture2Rec slot raw now = some u' → recOkB u' = true := by
  intro u' h
  unfold nameCapture2Rec at h
  split_ifs at h
  · exact hs u' h
  · simp only [Option.some.injEq] at h
    exact h ▸ recOkB_fresh raw now

theorem InvB_ensureUser (us : Users) (uid name : String) (now : Nat)
    (h : InvB us = true) : InvB (ensureUser us uid name now) = true := by
  unfold ensureUser
  cases hf : findUser us uid with
  | some u => exact h
  | none => exact usersAll_setUser _ _ _ _ h (recOkB_fresh name now)

theorem InvB_applyOp (op : Op) (us : Users) (h : InvB us = true) :
    InvB (applyOp op us) = true := by
  cases op with
  | stairsCmd uid username n dk now =>
      show InvB (stairsCmdStep us uid username n dk now) = true
      unfold stairsCmdStep
      by_cases hr : isRegistered us uid = false
      · simp only [hr, if_pos]
        exact h
      · simp only [hr, if_neg, not_false_iff]
        by_cases hn : n ≤ 0
        · simp only [hn, if_pos]
          exact h
        · simp only [hn, if_neg, not_false_iff]
          apply usersAll_setUser _ _ _ _ h
          cases hf : findUser us uid with
          | none => exact recOkB_addStairs_none username n dk now (by omega)
          | some u =>
              exact recOkB_addStairs_some u username n dk now
                (usersAll_findUser _ _ _ _ h hf) (by omega)
  | pending uid username mode n iso now =>
      show InvB (pendingStep us uid username mode n iso now) = true
      unfold pendingStep
      by_cases hn : n ≤ 0
      · simp only [hn, if_pos]
        exact h
      · rw [if_neg hn]
        have h1 : InvB (ensureUser us uid (fallbackName username) now) = true :=
          InvB_ensureUser us uid (fallbackName username) now h
        show InvB (match findUser (ensureUser us uid (fallbackName username) now) uid with
          | some u => setUser (ensureUser us uid (fallbackName username) now) uid
              (pendingModeRec u mode n iso now)
          | none => ensureUser us uid (fallbackName username) now) = true
        cases hf : findUser (ensureUser us uid (fallbackName username) now) uid with
        | none => exact h1
        | some u =>
            exact usersAll_setUser _ _ _ _ h1
              (recOkB_pendingModeRec u mode n iso now
                (usersAll_findUser _ _ _ _ h1 hf) (by omega))
  | updateCmd uid iso n now =>
      show InvB (updateCmdStep us uid iso n now) = true
      unfold updateCmdStep
      by_cases hr : isRegistered us uid = false
      · simp only [hr, if_pos]
        exact h
      · rw [if_neg hr]
        cases hf : findUser us uid with
        | none => exact h
        | some u =>
            have hu : recOkB u = true := usersAll_findUser _ _ _ _ h hf
            show InvB (match updateDay u iso n now with
              | Except.ok u' => setUser us uid u'
              | Except.error _ => us) = true
            cases hupd : updateDay u iso n now with
            | error e => exact h
            | ok u' =>
                apply usersAll_setUser _ _ _ _ h
                have hrun : updateDayRun u iso n now = u' := by
                  unfold updateDayRun
                  rw [hupd]
                exact hrun ▸ recOkB_updateDayRun u iso n now hu
  | nameCapture1 uid msg now =>
      show InvB (nameCapture1Step us uid msg now) = true
      unfold nameCapture1Step
      cases hc : nameCapture1Rec (findUser us uid) msg now with
      | none => exact h
      | some u' =>
          exact usersAll_setUser _ _ _ _ h
            (recOkB_nameCapture1Rec _ _ _
              (fun u hu => usersAll_findUser _ _ _ _ h hu) u' hc)
  | nameCapture2 uid raw now =>
      show InvB (nameCapture2Step us uid raw now) = true
      unfold nameCapture2Step
      cases hc : nameCapture2Rec (findUser us uid) raw now with
      | none => exact h
      | some u' =>
          exact usersAll_setUser _ _ _ _ h
            (recOkB_nameCapture2Rec _ _ _
              (fun u hu => usersAll_findUser _ _ _ _ h hu) u' hc)

theorem InvB_reachable (us : Users) (h : Reachable us) : InvB us = true := by
  induction h with
  | init => rfl
  | step op hus ih => exact InvB_applyOp op _ ih

/-- The per-record predicate behind C10: a non-empty display name. -/
def nameOkB (u : UserRec) : Bool := u.name != ""

theorem fallbackName_ne_empty (s : String) : (fallbackName s != "") = true := by
  unfold fallbackName
  by_cases h : s = ""
  · simp [h]
  · simp [h]

theorem ne_empty_of_len2 (s : String) (h : 2 ≤ s.length) : (s != "") = true := by
  simp only [bne_iff_ne, ne_eq]
  intro heq
  subst heq
  simp at h

theorem nameOkB_fresh (name : String) (now : Nat) (h : (name != "") = true) :
    nameOkB (freshRec name now) = true := h

theorem nameOkB_addStairsRec (slot : Option UserRec) (username : String)
    (n : Int) (dk : String) (now : Nat)
    (hs : ∀ u, slot = some u → nameOkB u = true) :
    nameOkB (addStairsRec slot username n dk now) = true := by
  cases slot with
  | none => exact fallbackName_ne_empty username
  | some u => exact hs u rfl

theorem pendingModeRec_name (u : UserRec) (mode : Bool) (n : Int)
    (iso : String) (now : Nat) : (pendingModeRec u mode n iso now).name = u.name := by
  cases mode with
  | true => rfl
  | false =>
      by_cases h : dget u.days iso < n
      · simp [pendingModeRec, h]
      · simp [pendingModeRec, h]

theorem updateDayRun_name (u : UserRec) (iso : String) (n : Int) (now : Nat) :
    (updateDayRun u iso n now).name = u.name := by
  unfold updateDayRun updateDay
  split_ifs <;> rfl

theorem nameOkB_nameCapture1Rec (slot : Option UserRec) (msg : String)
    (now : Nat) (hs : ∀ u, slot = some u → nameOkB u = true) :
    ∀ u', nameCapture1Rec slot msg now = some u' → nameOkB u' = true := by
  intro u' h
  unfold nameCapture1Rec at h
  split_ifs at h with h1 h2
  · exact hs u' h
  · exact hs u' h
  · have hlen : 2 ≤ msg.length := by
      rcases not_or.mp h2 with ⟨ha, _⟩
      omega
    cases slot <;> simp only [Option.getD_none, Option.getD_some,
        Option.some.injEq] at h <;>
      exact h ▸ ne_empty_of_len2 msg hlen

theorem nameOkB_nameCapture2Rec (slot : Option UserRec) (raw : String)
    (now : Nat) (hs : ∀ u, slot = some u → nameOkB u = true) :
    ∀ u', nameCapture2Rec slot raw now = some u' → nameOkB u' = true := by
  intro u' h
  unfold nameCapture2Rec at h
  split_ifs at h with h1
  · exact hs u' h
  · have hlen : 2 ≤ raw.length := by
      rcases not_or.mp h1 with ⟨ha, _⟩
      omega
    simp only [Option.some.injEq] at h
    exact h ▸ ne_empty_of_len2 raw hlen

theorem NamesOkB_ensureUser (us : Users) (uid name : String) (now : Nat)
    (h : NamesOkB us = true) (hn : (name != "") = true) :
    NamesOkB (ensureUser us uid name now) = true := by
  unfold ensureUser
  cases hf : findUser us uid with
  | some u => exact h
  | none => exact usersAll_setUser _ _ _ _ h (nameOkB_fresh name now hn)

theorem NamesOkB_applyOp (op : Op) (us : Users) (h : NamesOkB us = true) :
    NamesOkB (applyOp op us) = true := by
  cases op with
  | stairsCmd uid username n dk now =>
      show NamesOkB (stairsCmdStep us uid username n dk now) = true
      unfold stairsCmdStep
      by_cases hr : isRegistered us uid = false
      · simp only [hr, if_pos]
        exact h
      · rw [if_neg hr]
        by_cases hn : n ≤ 0
        · simp only [hn, if_pos]
          exact h
        · rw [if_neg hn]
          exact usersAll_setUser _ _ _ _ h
            (nameOkB_addStairsRec _ username n dk now
              (fun u hu => usersAll_findUser _ _ _ _ h hu))
  | pending uid username mode n iso now =>
      show NamesOkB (pendingStep us uid username mode n iso now) = true
      unfold pendingStep
      by_cases hn : n ≤ 0
      · simp only [hn, if_pos]
        exact h
      · rw [if_neg hn]
        have h1 : NamesOkB (ensureUser us uid (fallbackName username) now) = true :=
          NamesOkB_ensureUser us uid (fallbackName username) now h
            (fallbackName_ne_empty username)
        show NamesOkB (match findUser (ensureUser us uid (fallbackName username) now) uid with
          | some u => setUser (ensureUser us uid (fallbackName username) now) uid
              (pendingModeRec u mode n iso now)
          | none => ensureUser us uid (fallbackName username) now) = true
        cases hf : findUser (ensureUser us uid (fallbackName username) now) uid with
        | none => exact h1
        | some u =>
            apply usersAll_setUser _ _ _ _ h1
            have hname : nameOkB u = true := usersAll_findUser _ _ _ _ h1 hf
            show ((pendingModeRec u mode n iso now).name != "") = true
            rw [pendingModeRec_name]
            exact hname
  | updateCmd uid iso n now =>
      show NamesOkB (updateCmdStep us uid iso n now) = true
      unfold updateCmdStep
      by_cases hr : isRegistered us uid = false
      · simp only [hr, if_pos]
        exact h
      · rw [if_neg hr]
        cases hf : findUser us uid with
        | none => exact h
        | some u =>
            have hname : nameOkB u = true := usersAll_findUser _ _ _ _ h hf
            show NamesOkB (match updateDay u iso n now with
              | Except.ok u' => setUser us uid u'
              | Except.error _ => us) = true
            cases hupd : updateDay u iso n now with
            | error e => exact h
            | ok u' =>
                apply usersAll_setUser _ _ _ _ h
                have hrun : updateDayRun u iso n now = u' := by
                  unfold updateDayRun
                  rw [hupd]
                show (u'.name != "") = true
                rw [← hrun, updateDayRun_name]
                exact hname
  | nameCapture1 uid msg now =>
      show NamesOkB (nameCapture1Step us uid msg now) = true
      unfold nameCapture1Step
      cases hc : nameCapture1Rec (findUser us uid) msg now with
      | none => exact h
      | some u' =>
          exact usersAll_setUser _ _ _ _ h
            (nameOkB_nameCapture1Rec _ _ _
              (fun u hu => usersAll_findUser _ _ _ _ h hu) u' hc)
  | nameCapture2 uid raw now =>
      show NamesOkB (nameCapture2Step us uid raw now) = true
      unfold nameCapture2Step
      cases hc : nameCapture2Rec (findUser us uid) raw now with
      | none => exact h
      | some u' =>
          exact usersAll_setUser _ _ _ _ h
            (nameOkB_nameCapture2Rec _ _ _
              (fun u hu => usersAll_findUser _ _ _ _ h hu) u' hc)

theorem NamesOkB_reachable (us : Users) (h : Reachable us) : NamesOkB us = true := by
  induction h with
  | init => rfl
  | step op hus ih => exact NamesOkB_applyOp op _ ih

theorem isRegistered_isSome (us : Users) (uid : String)
    (h : NamesOkB us = true) :
    isRegistered us uid = (findUser us uid).isSome := by
  unfold isRegistered
  cases hf : findUser us uid with
  | none => rfl
  | some u =>
      have := usersAll_findUser _ _ _ _ h hf
      simpa using this

/-- Days since the Unix epoch of a proleptic-Gregorian civil date
(Howard Hinnant's `days_from_civil`, the algorithm realised by the JS `Date`
object for year/month/day triples). -/
def daysFromCivil (y m d : Int) : Int :=
  let y' := if m ≤ 2 then y - 1 else y
  let era := Int.fdiv y' 400
  let yoe := y' - era * 400
  let mp := Int.fmod (m + 9) 12
  let doy := Int.fdiv (153 * mp + 2) 5 + d - 1
  let doe := yoe * 365 + Int.fdiv yoe 4 - Int.fdiv yoe 100 + doy
  era * 146097 + doe - 719468

/-- Civil date from days since the Unix epoch (Hinnant's `civil_from_days`). -/
def civilFromDays (z : Int) : Int × Int × Int :=
  let z' := z + 719468
  let era := Int.fdiv z' 146097
  let doe := z' - era * 146097
  let yoe := Int.fdiv
    (doe - Int.fdiv doe 1460 + Int.fdiv doe 36524 - Int.fdiv doe 146096) 365
  let y := yoe + era * 400
  let doy := doe - (365 * yoe + Int.fdiv yoe 4 - Int.fdiv yoe 100)
  let mp := Int.fdiv (5 * doy + 2) 153
  let d := doy - Int.fdiv (153 * mp + 2) 5 + 1
  let m := if mp < 10 then mp + 3 else mp - 9
  (if m ≤ 2 then y + 1 else y, m, d)

/-- `Date.UTC(year, monthIndex, day)` as a day count: the month index is
normalised with floor division/modulo into the year (JS `MakeDay`), and the
day of month may itself overflow into later months. -/
def jsDateUTCDays (year m0 d : Int) : Int :=
  daysFromCivil (year + Int.fdiv m0 12) (Int.fmod m0 12 + 1) 1 + (d - 1)

/-- Zero-padded decimal of width 2, as produced by `toISOString`. -/
def pad2 (n : Int) : String :=
  if n < 10 then "0" ++ toString n else toString n

/-- Zero-padded decimal of width 4, as produced by `toISOString` for the year. -/
def pad4 (n : Int) : String :=
  if n < 10 then "000" ++ toString n
  else if n < 100 then "00" ++ toString n
  else if n < 1000 then "0" ++ toString n
  else toString n

/-- `new Date(ms).toISOString().slice(0, 10)` for a whole-day timestamp. -/
def isoOfDays (z : Int) : String :=
  let c := civilFromDays z
  pad4 c.1 ++ "-" ++ pad2 c.2.1 ++ "-" ++ pad2 c.2.2

/-- Value of a decimal digit character, as used by `Number(...)`. -/
def digitVal (c : Char) : Int := (c.toNat : Int) - 48

/-- `s.trim()`: strip leading and trailing whitespace. -/
def jsTrim (s : String) : String :=
  String.mk
    (((s.data.dropWhile Char.isWhitespace).reverse.dropWhile
        Char.isWhitespace).reverse)

/-- `ISO_RE = /^\d{4}-\d{2}-\d{2}$/` (src/index.js line 622). -/
def isoShape (s : String) : Bool :=
  match s.toList with
  | [a, b, c, d, '-', e, f, '-', g, h] =>
      [a, b, c, d, e, f, g, h].all Char.isDigit
  | _ => false

/-- `DM_RE = /^\d{2}\.\d{2}$/` (src/index.js line 623). -/
def dmShape (s : String) : Bool :=
  match s.toList with
  | [a, b, '.', c, d] => [a, b, c, d].all Char.isDigit
  | _ => false

/-- The `str.split(".").map(Number)` step of `parseUserDate`, specialised to
the five-character strings accepted by `DM_RE`: the two day digits and the two
month digits as numbers. -/
def dmParts (s : String) : Int × Int :=
  match s.toList with
  | [d1, d0, _, m1, m0] =>
      (10 * digitVal d1 + digitVal d0, 10 * digitVal m1 + digitVal m0)
  | _ => (0, 0)

/-- `parseUserDate(s)` (src/index.js lines 625-636): trim, return ISO-shaped
input unchanged, turn `DD.MM` into `Date.UTC(currentYear, MM-1, DD)` rendered
through `toISOString().slice(0,10)`, and return `null` otherwise.  The current
calendar year is passed explicitly. -/
def parseUserDate (year : Int) (s : String) : Option String :=
  let str := jsTrim s
  if isoShape str then some str
  else if dmShape str then
    some (isoOfDays (jsDateUTCDays year ((dmParts str).2 - 1) (dmParts str).1))
  else none

/-- The on-disk snapshot: `{ users, createdAt, updatedAt, version }`.  A v1
snapshot (src/unnamed/part_000) simply lacks the `version` field (`none`). -/
structure Snapshot where
  users : Users
  createdAt : Nat
  updatedAt : Nat
  version : Option Int
deriving Repr, DecidableEq

/-- JS truthiness of `parsed.version` in `if (!parsed.version)`: an absent or
zero version is falsy. -/
def versionTruthy : Option Int → Bool
  | none => false
  | some v => v != 0

/-- The v1-to-v2 migration block of `readDbV2` (src/index.js lines 655-667)
as a pure function of the parsed snapshot: when `!parsed.version`, every user
whose `total > 0` and whose `days` object has no keys gets
`days[todayKey()] = total`, and the snapshot is tagged `version = 2` with a
fresh `updatedAt`.  A truthy version leaves the snapshot untouched. -/
def migrateLegacy (today : String) (now : Nat) (s : Snapshot) : Snapshot :=
  if versionTruthy s.version then s
  else
    { s with
      users := s.users.map fun p =>
        (p.1,
          if 0 < p.2.total ∧ p.2.days = [] then
            { p.2 with days := dset p.2.days today p.2.total }
          else p.2)
      version := some 2
      updatedAt := now }

/-- Whether one scheduled save's `writeFile` + `rename` succeeds or throws. -/
inductive SaveResult where
  | ok
  | failed
deriving Repr, DecidableEq

/-- Settlement state of the `writeQueue` promise: fulfilled or rejected. -/
abbrev QueueState := Except Unit Unit

/-- `writeQueue.then(async () => {...})` — the scheduled save runs only when
the previous queue promise is fulfilled; a rejected predecessor propagates. -/
def queueThen : QueueState → SaveResult → QueueState
  | Except.error e, _ => Except.error e
  | Except.ok _, SaveResult.ok => Except.ok ()
  | Except.ok _, SaveResult.failed => Except.error ()

/-- `.catch((e) => console.error("Save error:", e))` — the handler absorbs a
rejection, so the resulting queue promise is always fulfilled. -/
def queueCatch : QueueState → QueueState
  | Except.error _ => Except.ok ()
  | Except.ok x => Except.ok x

/-- One `saveDb()` call (src/index.js lines 57-68): reassign
`writeQueue = writeQueue.then(job).catch(log)`. -/
def saveStep (q : QueueState) (r : SaveResult) : QueueState :=
  queueCatch (queueThen q r)

/-- Whether the queue promise is fulfilled. -/
def queueFulfilled : QueueState → Bool
  | Except.ok _ => true
  | Except.error _ => false

/-- Drain a submission-ordered list of scheduled saves: for each save, in FIFO
order, record whether its write+rename job actually ran (it runs exactly when
the preceding chain settled fulfilled). -/
def runWriteQueue : QueueState → List SaveResult → List Bool
  | _, [] => []
  | q, r :: rest => queueFulfilled q :: runWriteQueue (saveStep q r) rest

theorem findUser_setUser (us : Users) (uid : String) (u : UserRec) :
    findUser (setUser us uid u) uid = some u := by
  induction us with
  | nil => simp [setUser, findUser]
  | cons p rest ih =>
      obtain ⟨k, v⟩ := p
      by_cases hk : k = uid
      · simp [setUser, findUser, hk]
      · simp [setUser, findUser, hk, ih]

theorem saveStep_fulfilled (q : QueueState) (r : SaveResult) :
    saveStep q r = Except.ok () := by
  cases q <;> cases r <;> rfl

theorem versionTruthy_migrateLegacy (t : String) (n : Nat) (s : Snapshot) :
    versionTruthy (migrateLegacy t n s).version = true := by
  unfold migrateLegacy
  by_cases hv : versionTruthy s.version = true
  · rw [if_pos hv]
    exact hv
  · rw [if_neg hv]
    rfl

theorem migrateLegacy_noop (t : String) (n : Nat) (s : Snapshot)
    (h : versionTruthy s.version = true) : migrateLegacy t n s = s := by
  unfold migrateLegacy
  rw [if_pos h]

/-- Concrete ledger used to exercise C2: user `"7"` already holds history. -/
def renameDb : Users := [("7", ⟨"Old", 5, [("2024-01-01", 5)], 0⟩)]

/-- A record whose stored `total` disagrees with its day history (C3). -/
def inconsistentRec : UserRec := ⟨"ab", 10, [], 0⟩

/-- The spec's subtraction-guard record: `days["2024-01-01"] = 3` (C4). -/
def guardRec : UserRec := ⟨"ab", 3, [("2024-01-01", 3)], 0⟩

/-- The spec's Scenario E legacy snapshot (C6). -/
def legacySnap : Snapshot := ⟨[("7", ⟨"X", 40, [], 0⟩)], 0, 0, none⟩

/-- C1: for every reachable ledger state and every user record in it, the
record's `total` equals the sum of its `days` values and every day value is
non-negative; and every mutating operation of the bot (`/stairs` via
`addStairs`, the pending add/sub branch, `/update`, and both name-capture
variants) preserves this invariant on any state that satisfies it. -/
theorem claim1_ledger_invariant :
    (∀ us : Users, Reachable us → InvB us = true) ∧
    (∀ (op : Op) (us : Users), InvB us = true → InvB (applyOp op us) = true) :=
  ⟨InvB_reachable, InvB_applyOp⟩

/-- C1 witness: the invariant evaluated through a concrete `/stairs` step. -/
theorem claim1_ledger_invariant_wit :
    InvB (applyOp (Op.stairsCmd "42" "vad" 120 "2024-03-01" 1)
      [("42", ⟨"Vadym", 0, [], 0⟩)]) = true :=
  claim1_ledger_invariant.2 (Op.stairsCmd "42" "vad" 120 "2024-03-01" 1)
    [("42", ⟨"Vadym", 0, [], 0⟩)] (by decide)

/-- C2 counterexample: the claim says every name-capture variant renames an
existing record without clearing it, but variant 2 (src/index.js lines
1007-1013) assigns a fresh record: for user `"7"` with `total = 5` and one
recorded day, capturing the name `"NewName"` leaves `total = 0` and an empty
`days` map. -/
theorem claim2_counterexample :
    (findUser (nameCapture2Step renameDb "7" "NewName" 1) "7").map
        UserRec.total = some 0 ∧
    (findUser (nameCapture2Step renameDb "7" "NewName" 1) "7").map
        UserRec.days = some [] ∧
    (findUser renameDb "7").map UserRec.total = some 5 ∧
    (findUser renameDb "7").map UserRec.days = some [("2024-01-01", 5)] := by
  decide

/-- C2 (amended): in variant 1 the name capture renames an existing record
without clearing it — `days` and `total` are untouched, only `name` and
`updatedAt` change; variants 2 (src/index.js lines 1007-1013) and 3
(src/unnamed/part_000 lines 193-195) instead overwrite the slot with a fresh
record (`total 0`, empty history). -/
theorem claim2_rename_preserves_variant1 :
    (∀ (us : Users) (uid : String) (u : UserRec) (msg : String) (now : Nat),
      startsWithSlash msg = false → 2 ≤ msg.length → msg.length ≤ 40 →
      findUser us uid = some u →
      findUser (nameCapture1Step us uid msg now) uid =
        some { u with name := msg, updatedAt := now }) ∧
    (∀ (slot : Option UserRec) (raw : String) (now : Nat),
      2 ≤ raw.length → raw.length ≤ 40 →
      nameCapture2Rec slot raw now = some (freshRec raw now)) ∧
    (∀ (slot : Option V1Rec) (raw : String) (now : Nat),
      2 ≤ raw.length → raw.length ≤ 40 →
      nameCapture3Rec slot raw now = some ⟨raw, 0, now⟩) := by
  refine ⟨?_, ?_, ?_⟩
  · intro us uid u msg now hslash hlo hhi hf
    unfold nameCapture1Step nameCapture1Rec
    rw [hf]
    rw [if_neg (by rw [hslash]; exact Bool.false_ne_true)]
    rw [if_neg (by omega)]
    exact findUser_setUser us uid _
  · intro slot raw now hlo hhi
    unfold nameCapture2Rec
    rw [if_neg (by omega)]
  · intro slot raw now hlo hhi
    unfold nameCapture3Rec
    rw [if_neg (by omega)]

/-- C2 witness: variant 1 keeps the history of user `"7"` while renaming. -/
theorem claim2_rename_preserves_variant1_wit :
    findUser (nameCapture1Step renameDb "7" "NewName" 1) "7" =
      some ⟨"NewName", 5, [("2024-01-01", 5)], 1⟩ :=
  claim2_rename_preserves_variant1.1 renameDb "7"
    ⟨"Old", 5, [("2024-01-01", 5)], 0⟩ "NewName" 1 (by decide) (by decide)
    (by decide) (by decide)

/-- C3 counterexample: the claim says `addAmount` recomputes `total` as the
sum of the day values even when the record was inconsistent, but `addStairs`
only increments the stored `total`: starting from `total = 10` with an empty
`days` map, adding 1 yields `total = 11` while the day values sum to 1. -/
theorem claim3_counterexample :
    (addStairsRec (some inconsistentRec) "x" 1 "2024-03-01" 1).total = 11 ∧
    sumV (addStairsRec (some inconsistentRec) "x" 1 "2024-03-01" 1).days = 1 ∧
    (addStairsRec (some inconsistentRec) "x" 1 "2024-03-01" 1).total ≠
      sumV (addStairsRec (some inconsistentRec) "x" 1 "2024-03-01" 1).days := by
  refine ⟨by decide, by decide, by decide⟩

/-- C3 (amended): `addStairs` increments `days[dateKey]` and `total` by the
same amount without recomputing, so `total == sum(days.values())` holds after
the call exactly when it held before; the `pendingNumber` add branch is the
path that recomputes `total` as the sum of all day values, making the
invariant hold afterwards unconditionally. -/
theorem claim3_addStairs_increments :
    (∀ (u : UserRec) (fb : String) (n : Int) (dk : String) (now : Nat),
      (addStairsRec (some u) fb n dk now).total = u.total + n ∧
      sumV (addStairsRec (some u) fb n dk now).days = sumV u.days + n ∧
      ((addStairsRec (some u) fb n dk now).total =
          sumV (addStairsRec (some u) fb n dk now).days ↔
        u.total = sumV u.days)) ∧
    (∀ (u : UserRec) (n : Int) (iso : String) (now : Nat),
      (pendingModeRec u true n iso now).total =
        sumV (pendingModeRec u true n iso now).days) := by
  constructor
  · intro u fb n dk now
    have hs : sumV (dset u.days dk (dget u.days dk + n)) = sumV u.days + n := by
      rw [sumV_dset]
      ring
    refine ⟨rfl, hs, ?_⟩
    show u.total + n = sumV (dset u.days dk (dget u.days dk + n)) ↔
      u.total = sumV u.days
    rw [hs]
    omega
  · intro u n iso now
    rfl

/-- C4: with a negative delta, the `/update` handler fails (the spec's
`InsufficientDayBalance`) whenever the day's current value is 0 or smaller
than `|delta|`, and on that failure the record is left completely unchanged. -/
theorem claim4_insufficient_leaves_unchanged :
    ∀ (u : UserRec) (iso : String) (n : Int) (now : Nat),
      n < 0 → (dget u.days iso = 0 ∨ dget u.days iso < |n|) →
      (∃ e, updateDay u iso n now = Except.error e) ∧
      updateDayRun u iso n now = u := by
  intro u iso n now hn hcase
  by_cases h0 : dget u.days iso = 0
  · refine ⟨⟨UpdErr.noData, ?_⟩, ?_⟩
    · unfold updateDay
      rw [if_pos hn, if_pos h0]
    · unfold updateDayRun updateDay
      rw [if_pos hn, if_pos h0]
  · have hlt : dget u.days iso < |n| := hcase.resolve_left h0
    refine ⟨⟨UpdErr.insufficient, ?_⟩, ?_⟩
    · unfold updateDay
      rw [if_pos hn, if_neg h0, if_pos hlt]
    · unfold updateDayRun updateDay
      rw [if_pos hn, if_neg h0, if_pos hlt]

/-- C4 witness: the spec's boundary case — `adjustDay(u, "2024-01-01", -5)`
with `days["2024-01-01"] = 3` fails and changes nothing. -/
theorem claim4_insufficient_leaves_unchanged_wit :
    (∃ e, updateDay guardRec "2024-01-01" (-5) 0 = Except.error e) ∧
    updateDayRun guardRec "2024-01-01" (-5) 0 = guardRec :=
  claim4_insufficient_leaves_unchanged guardRec "2024-01-01" (-5) 0 (by decide)
    (Or.inr (by decide))

/-- C5 counterexample: the claim says `parse("13.13")` fails with
`InvalidDateFormat`, but `"13.13"` matches `DM_RE` and `Date.UTC(2024, 12, 13)`
rolls the month over, so in year 2024 the call succeeds with `"2025-01-13"`. -/
theorem claim5_counterexample :
    parseUserDate 2024 "13.13" = some "2025-01-13" ∧
    parseUserDate 2024 "13.13" ≠ none := by
  refine ⟨by decide, by decide⟩

/-- C5 (amended): `parseUserDate` returns the (trimmed) input unchanged for
every `YYYY-MM-DD`-shaped string; for every `DD.MM`-shaped string it returns
the day computed by `Date.UTC(currentYear, MM-1, DD)`, whose out-of-range
components roll over into later months and years instead of failing (so
`"05.11"` in 2024 gives `"2024-11-05"` but `"13.13"` gives `"2025-01-13"`);
it returns `null` exactly on inputs matching neither shape. -/
theorem claim5_parseUserDate_spec :
    (∀ (y : Int) (s : String), isoShape (jsTrim s) = true →
        parseUserDate y s = some (jsTrim s)) ∧
    (∀ (y : Int) (s : String), isoShape (jsTrim s) = false →
        dmShape (jsTrim s) = true →
        parseUserDate y s = some (isoOfDays (jsDateUTCDays y
          ((dmParts (jsTrim s)).2 - 1) (dmParts (jsTrim s)).1))) ∧
    (∀ (y : Int) (s : String), isoShape (jsTrim s) = false →
        dmShape (jsTrim s) = false → parseUserDate y s = none) ∧
    parseUserDate 2024 "05.11" = some "2024-11-05" ∧
    parseUserDate 2024 "2024-11-05" = some "2024-11-05" := by
  refine ⟨?_, ?_, ?_, by decide, by decide⟩
  · intro y s hiso
    unfold parseUserDate
    rw [if_pos hiso]
  · intro y s hiso hdm
    unfold parseUserDate
    rw [if_neg (by rw [hiso]; exact Bool.false_ne_true), if_pos hdm]
  · intro y s hiso hdm
    unfold parseUserDate
    rw [if_neg (by rw [hiso]; exact Bool.false_ne_true),
      if_neg (by rw [hdm]; exact Bool.false_ne_true)]

/-- C5 witness: the three branches at concrete inputs. -/
theorem claim5_parseUserDate_spec_wit :
    parseUserDate 2023 "1999-12-31" = some (jsTrim "1999-12-31") ∧
    parseUserDate 2024 "31.12" = some (isoOfDays (jsDateUTCDays 2024
      ((dmParts (jsTrim "31.12")).2 - 1) (dmParts (jsTrim "31.12")).1)) ∧
    parseUserDate 2024 "hello" = none :=
  ⟨claim5_parseUserDate_spec.1 2023 "1999-12-31" (by decide),
   claim5_parseUserDate_spec.2.1 2024 "31.12" (by decide) (by decide),
   claim5_parseUserDate_spec.2.2.1 2024 "hello" (by decide) (by decide)⟩

/-- C6: on a snapshot whose `version` is absent or 0, the migration block of
`readDbV2` seeds `days[today()] = total` for every user with a positive total
and an empty day map, leaves every other user unchanged, and tags the result
with schema version 2 (without touching `createdAt`). -/
theorem claim6_migrate_seeds :
    ∀ (today : String) (now : Nat) (s : Snapshot),
      s.version = none ∨ s.version = some 0 →
      (migrateLegacy today now s).version = some 2 ∧
      (migrateLegacy today now s).users = s.users.map (fun p =>
        (p.1,
          if 0 < p.2.total ∧ p.2.days = [] then
            { p.2 with days := [(today, p.2.total)] }
          else p.2)) ∧
      (migrateLegacy today now s).createdAt = s.createdAt := by
  intro today now s hv
  have hfalse : ¬versionTruthy s.version = true := by
    rcases hv with h | h <;> simp [versionTruthy, h]
  unfold migrateLegacy
  rw [if_neg hfalse]
  refine ⟨rfl, ?_, rfl⟩
  apply List.map_congr_left
  intro p _
  by_cases hc : 0 < p.2.total ∧ p.2.days = []
  · rw [if_pos hc, if_pos hc, hc.2]
    rfl
  · rw [if_neg hc, if_neg hc]

/-- C6 witness: the spec's Scenario E — a legacy snapshot holding
`{name: "X", total: 40, days: {}}` migrated on `2024-05-01`. -/
theorem claim6_migrate_seeds_wit :
    (migrateLegacy "2024-05-01" 9 legacySnap).version = some 2 ∧
    (migrateLegacy "2024-05-01" 9 legacySnap).users = legacySnap.users.map
      (fun p =>
        (p.1,
          if 0 < p.2.total ∧ p.2.days = [] then
            { p.2 with days := [("2024-05-01", p.2.total)] }
          else p.2)) ∧
    (migrateLegacy "2024-05-01" 9 legacySnap).createdAt =
      legacySnap.createdAt :=
  claim6_migrate_seeds "2024-05-01" 9 legacySnap (Or.inl rfl)

/-- C7: the migration is idempotent — a second run (even with a different
`today()` and timestamp) is a no-op, because the first run always leaves a
truthy `version`. -/
theorem claim7_migrate_idempotent :
    ∀ (t1 : String) (n1 : Nat) (t2 : String) (n2 : Nat) (s : Snapshot),
      migrateLegacy t2 n2 (migrateLegacy t1 n1 s) = migrateLegacy t1 n1 s :=
  fun t1 n1 t2 n2 s =>
    migrateLegacy_noop t2 n2 _ (versionTruthy_migrateLegacy t1 n1 s)

/-- C8: a date key present in a record's `days` map survives every mutating
operation — `addStairs`, both pending add/sub branches, and `/update`
(including its failure branches) never delete a key, even when its value
drops to 0. -/
theorem claim8_day_keys_preserved :
    (∀ (u : UserRec) (fb : String) (n : Int) (dk : String) (now : Nat)
        (k : String),
      hasKey u.days k = true →
      hasKey (addStairsRec (some u) fb n dk now).days k = true) ∧
    (∀ (u : UserRec) (mode : Bool) (n : Int) (iso : String) (now : Nat)
        (k : String),
      hasKey u.days k = true →
      hasKey (pendingModeRec u mode n iso now).days k = true) ∧
    (∀ (u : UserRec) (iso : String) (n : Int) (now : Nat) (k : String),
      hasKey u.days k = true →
      hasKey (updateDayRun u iso n now).days k = true) := by
  refine ⟨?_, ?_, ?_⟩
  · intro u fb n dk now k hk
    exact hasKey_dset u.days dk k _ hk
  · intro u mode n iso now k hk
    cases mode with
    | true => exact hasKey_dset u.days iso k _ hk
    | false =>
        by_cases hlt : dget u.days iso < n
        · simpa [pendingModeRec, hlt] using hk
        · have h2 := hasKey_dset u.days iso k (dget u.days iso - n) hk
          simpa [pendingModeRec, hlt] using h2
  · intro u iso n now k hk
    unfold updateDayRun updateDay
    split_ifs <;>
      first
        | exact hk
        | exact hasKey_dset u.days iso k _ hk

/-- C8 witness: the key `"2024-01-01"` survives an addition on another day, a
subtraction down to 0, and an `/update` down to 0. -/
theorem claim8_day_keys_preserved_wit :
    hasKey (addStairsRec (some guardRec) "x" 2 "2024-01-02" 1).days
      "2024-01-01" = true ∧
    hasKey (pendingModeRec guardRec false 3 "2024-01-01" 1).days
      "2024-01-01" = true ∧
    hasKey (updateDayRun guardRec "2024-01-01" (-3) 1).days
      "2024-01-01" = true :=
  ⟨claim8_day_keys_preserved.1 guardRec "x" 2 "2024-01-02" 1 "2024-01-01"
      (by decide),
   claim8_day_keys_preserved.2.1 guardRec false 3 "2024-01-01" 1 "2024-01-01"
      (by decide),
   claim8_day_keys_preserved.2.2 guardRec "2024-01-01" (-3) 1 "2024-01-01"
      (by decide)⟩

/-- C9: draining the promise-chained `writeQueue` runs every scheduled save,
in FIFO submission order, regardless of earlier failures: each save's
write+rename job executes exactly when the preceding chain has settled, the
`.catch` handler leaves the chain fulfilled after every save, and therefore
the executed-flags of any submission list are all `true`. -/
theorem claim9_writeQueue_fifo :
    ∀ rs : List SaveResult,
      runWriteQueue (Except.ok ()) rs = List.replicate rs.length true ∧
      List.foldl saveStep (Except.ok ()) rs = Except.ok () := by
  intro rs
  induction rs with
  | nil => exact ⟨rfl, rfl⟩
  | cons r rest ih =>
      refine ⟨?_, ?_⟩
      · show queueFulfilled (Except.ok ()) ::
            runWriteQueue (saveStep (Except.ok ()) r) rest =
          List.replicate (rest.length + 1) true
        rw [saveStep_fulfilled, List.replicate_succ]
        exact congrArg (List.cons true) ih.1
      · show List.foldl saveStep (saveStep (Except.ok ()) r) rest =
          Except.ok ()
        rw [saveStep_fulfilled]
        exact ih.2

/-- C10: every record in a reachable ledger state carries a non-empty name
(auto-created records get the non-empty fallback, registration enforces 2-40
characters), so `isRegistered(userId)` coincides with record existence. -/
theorem claim10_registered_iff_exists :
    (∀ us : Users, Reachable us → NamesOkB us = true) ∧
    (∀ (us : Users) (uid : String), NamesOkB us = true →
      isRegistered us uid = (findUser us uid).isSome) :=
  ⟨NamesOkB_reachable, isRegistered_isSome⟩

/-- C10 witness: `isRegistered` agrees with existence on a concrete ledger. -/
theorem claim10_registered_iff_exists_wit :
    isRegistered [("7", ⟨"Vadym", 0, [], 0⟩)] "7" =
      (findUser [("7", ⟨"Vadym", 0, [], 0⟩)] "7").isSome ∧
    isRegistered [("7", ⟨"Vadym", 0, [], 0⟩)] "8" =
      (findUser [("7", ⟨"Vadym", 0, [], 0⟩)] "8").isSome :=
  ⟨claim10_registered_iff_exists.2 [("7", ⟨"Vadym", 0, [], 0⟩)] "7" (by decide),
   claim10_registered_iff_exists.2 [("7", ⟨"Vadym", 0, [], 0⟩)] "8"
     (by decide)⟩
